/-
Verification of the audio analysis & visualization-data pipeline of the
circular-equalizer repository.

The pipeline lives in `src/utils/audioHelpers.js` (pure numeric transforms over
byte buffers) and `src/hooks/useAudioAnalyzer.js` (the recording-session
lifecycle).  Byte buffers (`Uint8Array`) are modelled as `List ℕ`; where a
function only ever reads the samples as IEEE numbers we model the input as
`List ℝ`.  JavaScript number arithmetic is modelled by exact real arithmetic;
`Math.round` is Mathlib's `round` (both equal `⌊x + 1/2⌋`, including ties),
`Math.floor` is `Int.floor`, and the `ToUint8` coercion performed by a
`Uint8Array` store is `· % 256` on integers (with `NaN` coerced to `0`, which
is modelled explicitly at the one place it can occur).
-/
import Mathlib

noncomputable section

open Real

/-- Center frequency of a bin: `(index * sampleRate) / fftSize`
(audioHelpers.js, `getFrequencyForIndex`). -/
def getFrequencyForIndex (index fftSize sampleRate : ℝ) : ℝ :=
  index * sampleRate / fftSize

/-- Bin index of a frequency: `Math.floor((frequency * fftSize) / sampleRate)`
(audioHelpers.js, `getIndexForFrequency`). -/
def getIndexForFrequency (frequency fftSize sampleRate : ℝ) : ℤ :=
  ⌊frequency * fftSize / sampleRate⌋

/-- RMS level (audioHelpers.js, `calculateRMS`): guard for an empty array,
normalize each byte to `(v - 128) / 128`, accumulate squares, divide by the
count, take the square root and clamp with `Math.min(rms, 1)`. -/
def calculateRMS (dataArray : List ℝ) : ℝ :=
  if dataArray.length = 0 then 0
  else
    min (Real.sqrt ((dataArray.map (fun v => ((v - 128) / 128) * ((v - 128) / 128))).sum
          / dataArray.length)) 1

/-- Peak level (audioHelpers.js, `calculatePeak`): running maximum of the
absolute normalized samples, starting from `0`, clamped with `Math.min`. -/
def calculatePeak (dataArray : List ℝ) : ℝ :=
  if dataArray.length = 0 then 0
  else min (dataArray.foldl (fun peak v => max peak |(v - 128) / 128|) 0) 1

/-- Temporal smoothing (audioHelpers.js, `smoothFrequencyData`).
`if (!previousData) return currentData.slice()`; otherwise a fresh
`Uint8Array(currentData.length)` is filled with
`Math.round(previousData[i]*sf + currentData[i]*(1-sf))`.
When `i ≥ previousData.length`, JavaScript reads `undefined`, the blend is
`NaN`, and the `Uint8Array` store coerces it to `0`; in-range stores coerce
the rounded integer with `ToUint8`, i.e. `% 256`. -/
def smoothFrequencyData (currentData : List ℕ) (previousData : Option (List ℕ))
    (smoothingFactor : ℝ) : List ℕ :=
  match previousData with
  | none => currentData
  | some prev =>
      (List.range currentData.length).map (fun i =>
        if i < prev.length then
          ((round ((prev.getD i 0 : ℝ) * smoothingFactor
              + (currentData.getD i 0 : ℝ) * (1 - smoothingFactor))) % 256).toNat
        else 0)

/-- Normalization to `[0,1]` (audioHelpers.js, `normalizeFrequencyData`):
divide each sample by `maxValue`. -/
def normalizeFrequencyData (dataArray : List ℕ) (maxValue : ℝ) : List ℝ :=
  dataArray.map (fun (v : ℕ) => (v : ℝ) / maxValue)

/-- Logarithmic index remap (audioHelpers.js, `applyLogScaling`):
`scaled[i] = dataArray[Math.floor(Math.log10(i+1)/Math.log10(len) * len)] || 0`.
The base-10 logarithms only occur as a ratio, which equals the ratio of
natural logarithms.  For a length-1 array `Math.log10(len) = 0`, the division
is `0/0 = NaN` in JavaScript, the array read yields `undefined`, and `|| 0`
produces `0`; that case is modelled explicitly.  Out-of-range indices (the
remap can produce `len` itself) read as `0` via `|| 0`, which `getD` models. -/
def applyLogScaling (dataArray : List ℕ) : List ℕ :=
  (List.range dataArray.length).map (fun (i : ℕ) =>
    if dataArray.length = 1 then 0
    else dataArray.getD
      (⌊Real.log ((i : ℝ) + 1) / Real.log (dataArray.length : ℝ)
        * (dataArray.length : ℝ)⌋).toNat 0)

/-- Spectral centroid (audioHelpers.js, `calculateSpectralCentroid`):
`Σ frequency(i)·data[i] / Σ data[i]`, or `0` when the total is not positive. -/
def calculateSpectralCentroid (frequencyData : List ℝ) (sampleRate fftSize : ℝ) : ℝ :=
  let weightedSum := ((List.range frequencyData.length).map (fun (i : ℕ) =>
    getFrequencyForIndex (i : ℝ) fftSize sampleRate * frequencyData.getD i 0)).sum
  let sum := frequencyData.sum
  if sum > 0 then weightedSum / sum else 0

/-- Spectral flatness (audioHelpers.js, `calculateSpectralFlatness`):
geometric mean over arithmetic mean of the magnitudes, each magnitude floored
at `0.0001` to avoid `log 0`; `0` for an empty array, and `0` when the
arithmetic mean is not positive. -/
def calculateSpectralFlatness (frequencyData : List ℝ) : ℝ :=
  if frequencyData.length = 0 then 0
  else
    let geometricMean :=
      Real.exp ((frequencyData.map (fun v => Real.log (max v 0.0001))).sum
        / frequencyData.length)
    let arithmeticMean :=
      (frequencyData.map (fun v => max v 0.0001)).sum / frequencyData.length
    if arithmeticMean > 0 then geometricMean / arithmeticMean else 0

/-- The scanning loop of `calculateSpectralRolloff`: starting from the running
sum `cum` at bin `idx`, return the first index whose cumulative energy reaches
`target`, or `none` if the loop runs off the end of the array. -/
def rolloffScan : List ℝ → ℝ → ℝ → ℕ → Option ℕ
  | [], _, _, _ => none
  | v :: rest, target, cum, idx =>
      if cum + v ≥ target then some idx
      else rolloffScan rest target (cum + v) (idx + 1)

/-- Spectral rolloff (audioHelpers.js, `calculateSpectralRolloff`):
`targetEnergy = totalEnergy * percentile`; scan bins in ascending order and
return the frequency of the first bin whose cumulative energy reaches the
target, falling back to `getFrequencyForIndex(length - 1)` when the loop never
reaches it. -/
def calculateSpectralRolloff (frequencyData : List ℝ)
    (sampleRate fftSize percentile : ℝ) : ℝ :=
  let totalEnergy := frequencyData.sum
  match rolloffScan frequencyData (totalEnergy * percentile) 0 0 with
  | some i => getFrequencyForIndex i fftSize sampleRate
  | none => getFrequencyForIndex ((frequencyData.length : ℝ) - 1) fftSize sampleRate

/-- The three presentation modes of `getFrequencyColor` (its `mode` string). -/
inductive ColorMode
  | hsl
  | rgb
  | gradient

/-- The numeric content of an `hsl(h, s%, l%)` CSS string. -/
structure HSLColor where
  hue : ℝ
  saturation : ℝ
  lightness : ℝ

/-- The value returned by `getFrequencyColor`: the numeric content of the
CSS color string (or gradient object) it builds. -/
inductive ColorResult
  | hslColor (color : HSLColor)
  | rgbColor (r g b : ℤ)
  | gradientColor (startColor endColor : HSLColor)

/-- JavaScript truncation toward zero, as used by the float `%` operator. -/
def jsTrunc (x : ℝ) : ℤ :=
  if 0 ≤ x then ⌊x⌋ else -⌊-x⌋

/-- The JavaScript float remainder `a % b` (sign of the dividend):
`a - b * trunc(a / b)`. -/
def jsFmod (a b : ℝ) : ℝ :=
  a - b * jsTrunc (a / b)

/-- Frequency-to-color mapping (audioHelpers.js, `getFrequencyColor`):
`baseHue = (frequency / 20000) * 360` (no wrap and no clamp),
`saturation = 70 + intensity * 30`, `lightness = 40 + intensity * 40`.
The `rgb` mode converts through the standard HSL-to-RGB formulas; the
`gradient` mode returns a two-stop object.  The JS `switch` default equals the
`hsl` case, and `mode` is one of the three strings, so no separate default
branch is modelled. -/
def getFrequencyColor (frequency intensity : ℝ) (mode : ColorMode) : ColorResult :=
  let baseHue := frequency / 20000 * 360
  let saturation := 70 + intensity * 30
  let lightness := 40 + intensity * 40
  match mode with
  | ColorMode.hsl => ColorResult.hslColor ⟨baseHue, saturation, lightness⟩
  | ColorMode.rgb =>
      let h := baseHue / 360
      let s := saturation / 100
      let l := lightness / 100
      let chroma := (1 - |2 * l - 1|) * s
      let x := chroma * (1 - |jsFmod (h * 6) 2 - 1|)
      let m := l - chroma / 2
      let rgb : ℝ × ℝ × ℝ :=
        if h < 1 / 6 then (chroma, x, 0)
        else if h < 2 / 6 then (x, chroma, 0)
        else if h < 3 / 6 then (0, chroma, x)
        else if h < 4 / 6 then (0, x, chroma)
        else if h < 5 / 6 then (x, 0, chroma)
        else (chroma, 0, x)
      ColorResult.rgbColor (round ((rgb.1 + m) * 255)) (round ((rgb.2.1 + m) * 255))
        (round ((rgb.2.2 + m) * 255))
  | ColorMode.gradient =>
      ColorResult.gradientColor ⟨baseHue, saturation, lightness⟩
        ⟨baseHue + 60, saturation, lightness + 20⟩

/-- The destructured options object of `createCircularVisualizationData`
(the `smoothing` field is destructured by the source but never used). -/
structure VisualizationOptions where
  smoothing : ℝ
  logScaling : Bool
  minBarHeight : ℝ
  maxBarHeight : ℝ

/-- The default option values `{smoothing = 0.7, logScaling = true,
minBarHeight = 0.05, maxBarHeight = 1.0}`. -/
def defaultVizOptions : VisualizationOptions :=
  ⟨0.7, true, 0.05, 1.0⟩

/-- The easing curve `Math.pow(x, 1.5)`.  Every call site first clamps its
argument below by `minBarHeight ≥ 0`, so only the nonnegative regime is
reached, where `x ^ 1.5 = x * √x` exactly. -/
def pow15 (x : ℝ) : ℝ :=
  x * Real.sqrt x

/-- One angular visualization slot produced by
`createCircularVisualizationData`. -/
structure BarDatum where
  index : ℕ
  height : ℝ
  frequency : ℝ
  rawValue : ℝ
  angle : ℝ

/-- A default `BarDatum`, used only as the fallback of `List.getD`. -/
def dummyBar : BarDatum :=
  ⟨0, 0, 0, 0, 0⟩

/-- The body of the bar loop of `createCircularVisualizationData` for output
index `i`: segment `[i*step, min(i*step+step, length))`, its average (or `0`
for an empty segment) as `rawValue`, the clamp to
`[minBarHeight, maxBarHeight]` followed by the `pow 1.5` easing as `height`,
the representative frequency `frequency(startIdx + step/2)` (float division by
2), and `angle = (i / numBars) * π * 2`. -/
def barAt (normalizedData : List ℝ) (numBars step : ℕ)
    (options : VisualizationOptions) (i : ℕ) : BarDatum :=
  let startIdx := i * step
  let endIdx := min (startIdx + step) normalizedData.length
  let count := endIdx - startIdx
  let segmentSum := ((normalizedData.drop startIdx).take count).sum
  let avgValue := if 0 < count then segmentSum / (count : ℝ) else 0
  let barHeight := min (max avgValue options.minBarHeight) options.maxBarHeight
  { index := i
    height := pow15 barHeight
    frequency := getFrequencyForIndex ((startIdx : ℝ) + (step : ℝ) / 2) 2048 44100
    rawValue := avgValue
    angle := (i : ℝ) / (numBars : ℝ) * Real.pi * 2 }

/-- Bar-dataset generation (audioHelpers.js, `createCircularVisualizationData`):
optionally remap through `applyLogScaling`, coerce back through a fresh
`Uint8Array` (the source values are integers, so `Math.round` is the identity
and the store coerces with `% 256`), normalize by 255, then emit `numBars`
bars with `step = Math.floor(length / numBars)`. -/
def createCircularVisualizationData (frequencyData : List ℕ) (numBars : ℕ)
    (options : VisualizationOptions) : List BarDatum :=
  let processedData :=
    if options.logScaling then applyLogScaling frequencyData else frequencyData
  let normalizedData := normalizeFrequencyData (processedData.map (· % 256)) 255
  let step := normalizedData.length / numBars
  (List.range numBars).map (barAt normalizedData numBars step options)

/-- The `frequency` group of `calculateAudioStats`.  The running `min`/`max`
start from `Infinity`/`-Infinity`, modelled by `⊤`/`⊥` in `EReal`; `avg` is
`sum / length`, which is `NaN` (modelled `none`) for an empty buffer. -/
structure FrequencyStats where
  min : EReal
  max : EReal
  avg : Option ℝ
  total : ℝ

/-- The `level` group of `calculateAudioStats`. -/
structure LevelStats where
  rms : ℝ
  peak : ℝ
  avg : ℝ

/-- The `spectral` group of `calculateAudioStats`. -/
structure SpectralStats where
  centroid : ℝ
  flatness : ℝ
  rolloff : ℝ

/-- The seven named band averages of `calculateBandAverages`, keyed as in the
source (`name.toLowerCase().replace('_','')`). -/
structure BandAverages where
  subbass : ℝ
  bass : ℝ
  lowmid : ℝ
  mid : ℝ
  highmid : ℝ
  presence : ℝ
  brilliance : ℝ

/-- Average magnitude over one band (audioHelpers.js, `calculateBandAverages`
loop body): bin range `[getIndexForFrequency(low), getIndexForFrequency(high)]`
intersected with the array bounds, `0` when no index is iterated.  Every
configured band has `lowFreq ≥ 20`, so `lowIndex ≥ 0` for the positive default
rate parameters and the JS loop iterates exactly this filtered index set. -/
def bandAverage (frequencyData : List ℝ) (lowFreq highFreq sampleRate fftSize : ℝ) : ℝ :=
  let lowIndex := getIndexForFrequency lowFreq fftSize sampleRate
  let highIndex := getIndexForFrequency highFreq fftSize sampleRate
  let idxs := (List.range frequencyData.length).filter
    (fun (i : ℕ) => decide (lowIndex ≤ (i : ℤ) ∧ (i : ℤ) ≤ highIndex))
  if idxs.length = 0 then 0
  else (idxs.map (fun i => frequencyData.getD i 0)).sum / idxs.length

/-- The seven fixed bands of `AUDIO_CONSTANTS.FREQUENCY_BANDS` averaged by
`calculateBandAverages`. -/
def calculateBandAverages (frequencyData : List ℝ) (sampleRate fftSize : ℝ) :
    BandAverages where
  subbass := bandAverage frequencyData 20 60 sampleRate fftSize
  bass := bandAverage frequencyData 60 250 sampleRate fftSize
  lowmid := bandAverage frequencyData 250 500 sampleRate fftSize
  mid := bandAverage frequencyData 500 2000 sampleRate fftSize
  highmid := bandAverage frequencyData 2000 4000 sampleRate fftSize
  presence := bandAverage frequencyData 4000 6000 sampleRate fftSize
  brilliance := bandAverage frequencyData 6000 20000 sampleRate fftSize

/-- The snapshot value object of `calculateAudioStats`. -/
structure AudioStats where
  frequency : FrequencyStats
  level : LevelStats
  bands : BandAverages
  spectral : SpectralStats

/-- Full statistics snapshot (audioHelpers.js, `calculateAudioStats`):
buffer-wide min/max/avg/sum, the RMS/peak/average level when time-domain data
is present and non-empty, the seven band averages, and the three spectral
descriptors (all at the default `sampleRate = 44100`, `fftSize = 2048`,
rolloff percentile `0.85`). -/
def calculateAudioStats (frequencyData : List ℝ)
    (timeDomainData : Option (List ℝ)) : AudioStats where
  frequency :=
    { min := frequencyData.foldl (fun (m : EReal) (v : ℝ) => Min.min m (v : EReal)) ⊤
      max := frequencyData.foldl (fun (m : EReal) (v : ℝ) => Max.max m (v : EReal)) ⊥
      avg := if frequencyData.length = 0 then none
             else some (frequencyData.sum / frequencyData.length)
      total := frequencyData.sum }
  level :=
    match timeDomainData with
    | some t =>
        if t.length = 0 then ⟨0, 0, 0⟩
        else ⟨calculateRMS t, calculatePeak t, t.sum / t.length⟩
    | none => ⟨0, 0, 0⟩
  bands := calculateBandAverages frequencyData 44100 2048
  spectral :=
    { centroid := calculateSpectralCentroid frequencyData 44100 2048
      flatness := calculateSpectralFlatness frequencyData
      rolloff := calculateSpectralRolloff frequencyData 44100 2048 0.85 }

/-- The observable state of the `useAudioAnalyzer` hook: the published React
state slots (`isRecording`, `frequencyData`, `audioLevel`, `audioStats`) plus
the `previousDataRef` smoothing state.  The capture-side refs (analyser node,
raw buffers) are modelled as the per-tick inputs of `analyzeAudioTick`. -/
structure AnalyzerState where
  isRecording : Bool
  frequencyData : Option (List ℕ)
  audioLevel : ℝ
  audioStats : Option AudioStats
  previousData : Option (List ℕ)

/-- The hook's initial state: nothing published, no previous frame. -/
def initialAnalyzerState : AnalyzerState :=
  ⟨false, none, 0, none, none⟩

/-- The successful completion of `startRecording`: the session becomes live.
The source allocates fresh capture buffers (modelled as tick inputs) and
notably does not touch `previousDataRef`. -/
def startRecording (s : AnalyzerState) : AnalyzerState :=
  { s with isRecording := true }

/-- `stopRecording` (useAudioAnalyzer.js): cancels the animation frame,
releases the capture resources, and resets every published state slot and
every ref — including `previousDataRef.current = null` — to its initial
value. -/
def stopRecording (_s : AnalyzerState) : AnalyzerState :=
  ⟨false, none, 0, none, none⟩

/-- One tick of the `analyzeAudio` loop (useAudioAnalyzer.js): read fresh
frequency/time buffers, smooth against `previousDataRef` when present (factor
`0.6`), store the processed buffer as the new previous frame, and publish the
RMS level, a copy of the processed buffer, and the statistics snapshot. -/
def analyzeAudioTick (s : AnalyzerState) (currentFreq timeData : List ℕ) :
    AnalyzerState :=
  let processedFrequencyData :=
    match s.previousData with
    | some prev => smoothFrequencyData currentFreq (some prev) 0.6
    | none => currentFreq
  { isRecording := s.isRecording
    frequencyData := some processedFrequencyData
    audioLevel := calculateRMS (timeData.map (fun (v : ℕ) => (v : ℝ)))
    audioStats := some (calculateAudioStats
      (processedFrequencyData.map (fun (v : ℕ) => (v : ℝ)))
      (some (timeData.map (fun (v : ℕ) => (v : ℝ)))))
    previousData := some processedFrequencyData }

/-- A buffer with a single nonzero bin (value `v` at index 0) and `n - 1`
zero bins, used to state the flatness limit of the spec. -/
def singleBinBuffer (n : ℕ) (v : ℝ) : List ℝ :=
  v :: List.replicate (n - 1) 0

/-! ### Helper lemmas -/

lemma round_mono_real {x y : ℝ} (h : x ≤ y) : round x ≤ round y := by
  rw [round_eq, round_eq]
  exact Int.floor_mono (by linarith)

lemma smoothFrequencyData_length (cur prev : List ℕ) (α : ℝ) :
    (smoothFrequencyData cur (some prev) α).length = cur.length := by
  simp [smoothFrequencyData]

lemma smoothFrequencyData_getD_in (cur prev : List ℕ) (α : ℝ) (i : ℕ)
    (hi : i < cur.length) (hp : i < prev.length) :
    (smoothFrequencyData cur (some prev) α).getD i 0
      = ((round ((prev.getD i 0 : ℝ) * α + (cur.getD i 0 : ℝ) * (1 - α))) % 256).toNat := by
  unfold smoothFrequencyData
  rw [List.getD_eq_getElem?_getD, List.getElem?_map, List.getElem?_range hi]
  simp [hp]

lemma smoothFrequencyData_getD_out (cur prev : List ℕ) (α : ℝ) (i : ℕ)
    (hi : i < cur.length) (hp : prev.length ≤ i) :
    (smoothFrequencyData cur (some prev) α).getD i 0 = 0 := by
  unfold smoothFrequencyData
  rw [List.getD_eq_getElem?_getD, List.getElem?_map, List.getElem?_range hi]
  simp [Nat.not_lt.2 hp]

lemma smooth_round_between (p c : ℕ) (hcp : c ≤ p) (α : ℝ) (h0 : 0 ≤ α) (h1 : α ≤ 1) :
    (c : ℤ) ≤ round ((p : ℝ) * α + (c : ℝ) * (1 - α))
    ∧ round ((p : ℝ) * α + (c : ℝ) * (1 - α)) ≤ (p : ℤ) := by
  have hcp' : (c : ℝ) ≤ (p : ℝ) := by exact_mod_cast hcp
  constructor
  · have : (c : ℝ) ≤ (p : ℝ) * α + (c : ℝ) * (1 - α) := by nlinarith
    calc (c : ℤ) = round ((c : ℕ) : ℝ) := (round_natCast c).symm
      _ ≤ _ := round_mono_real this
  · have : (p : ℝ) * α + (c : ℝ) * (1 - α) ≤ (p : ℝ) := by nlinarith
    calc round ((p : ℝ) * α + (c : ℝ) * (1 - α)) ≤ round ((p : ℕ) : ℝ) :=
          round_mono_real this
      _ = (p : ℤ) := round_natCast p

lemma smooth_round_mono (p c : ℕ) (hcp : c ≤ p) (a b : ℝ) (hab : a ≤ b) :
    round ((p : ℝ) * a + (c : ℝ) * (1 - a)) ≤ round ((p : ℝ) * b + (c : ℝ) * (1 - b)) := by
  have hcp' : (c : ℝ) ≤ (p : ℝ) := by exact_mod_cast hcp
  exact round_mono_real (by nlinarith)

lemma emod256_eq {v : ℤ} (h0 : 0 ≤ v) (h : v ≤ 255) : v % 256 = v :=
  Int.emod_eq_of_lt h0 (by omega)

/-! ### C2 -/

/-- C2 counterexample: a call with a previous buffer of a different length is
not rejected — for current `[100, 100]` and previous `[50]` the smoothing
operation happily returns `[60, 0]` (the index without a previous sample is
zero-filled by the `NaN` coercion). -/
theorem c2_counterexample :
    smoothFrequencyData [100, 100] (some [50]) 0.8 = [60, 0] := by
  unfold smoothFrequencyData
  norm_num [List.range_succ, round_eq]
  rfl

/-- C2 corrected: for every pair of buffers and every smoothing factor, the
smoothing operation never rejects a length mismatch.  It returns a buffer of
the current buffer's length: a longer previous buffer is silently truncated,
and every index past the previous buffer's end is silently filled with `0`
(the `NaN` blend coerced by the `Uint8Array` store). -/
theorem c2_mismatch_not_rejected (currentData prevData : List ℕ) (α : ℝ) :
    (smoothFrequencyData currentData (some prevData) α).length = currentData.length
    ∧ (∀ i : ℕ, i < currentData.length → prevData.length ≤ i →
        (smoothFrequencyData currentData (some prevData) α).getD i 0 = 0) :=
  ⟨smoothFrequencyData_length currentData prevData α,
   fun i hi hp => smoothFrequencyData_getD_out currentData prevData α i hi hp⟩

/-- C2 witness: the corrected statement evaluated at current `[100, 100]`,
previous `[50]`, factor `0.8`, index `1`. -/
theorem c2_witness :
    (smoothFrequencyData [100, 100] (some [50]) 0.8).getD 1 0 = 0 :=
  (c2_mismatch_not_rejected [100, 100] [50] 0.8).2 1 (by norm_num) (by norm_num)

/-! ### C6 -/

/-- C6: after any start→stop→start sequence the smoothing state is absent, so
the second session's first tick equals the very first tick ever from the
initial state, and its published frequency data is (a copy of) the freshly
captured current buffer, with no blending across the stop boundary. -/
theorem c6_stop_resets_smoothing (s : AnalyzerState) (currentFreq timeData : List ℕ) :
    analyzeAudioTick (startRecording (stopRecording s)) currentFreq timeData
      = analyzeAudioTick (startRecording initialAnalyzerState) currentFreq timeData
    ∧ (analyzeAudioTick (startRecording (stopRecording s)) currentFreq timeData).frequencyData
      = some currentFreq :=
  ⟨rfl, rfl⟩

/-! ### C7 -/

/-- C7: at every in-range index of two equal-length byte buffers the smoothed
sample `round(previous[i]*α + current[i]*(1-α))` equals `current[i]` at
`α = 0` and `previous[i]` at `α = 1`, is monotone in `α` on `[0, 1]` (toward
`previous[i]`), and always lies between `current[i]` and `previous[i]`. -/
theorem c7_smoothing_monotone (cur prev : List ℕ) (i : ℕ)
    (hcur : i < cur.length) (hprev : i < prev.length)
    (hc255 : cur.getD i 0 ≤ 255) (hp255 : prev.getD i 0 ≤ 255) :
    ((smoothFrequencyData cur (some prev) 0).getD i 0 = cur.getD i 0)
    ∧ ((smoothFrequencyData cur (some prev) 1).getD i 0 = prev.getD i 0)
    ∧ (∀ a b : ℝ, 0 ≤ a → a ≤ b → b ≤ 1 →
        (cur.getD i 0 ≤ prev.getD i 0 →
          (smoothFrequencyData cur (some prev) a).getD i 0
            ≤ (smoothFrequencyData cur (some prev) b).getD i 0)
        ∧ (prev.getD i 0 ≤ cur.getD i 0 →
          (smoothFrequencyData cur (some prev) b).getD i 0
            ≤ (smoothFrequencyData cur (some prev) a).getD i 0))
    ∧ (∀ a : ℝ, 0 ≤ a → a ≤ 1 →
        min (cur.getD i 0) (prev.getD i 0)
          ≤ (smoothFrequencyData cur (some prev) a).getD i 0
        ∧ (smoothFrequencyData cur (some prev) a).getD i 0
          ≤ max (cur.getD i 0) (prev.getD i 0)) := by
  set c := cur.getD i 0 with hc
  set p := prev.getD i 0 with hp
  have key : ∀ α : ℝ, 0 ≤ α → α ≤ 1 →
      (smoothFrequencyData cur (some prev) α).getD i 0
        = (round ((p : ℝ) * α + (c : ℝ) * (1 - α))).toNat
      ∧ (min c p : ℤ) ≤ round ((p : ℝ) * α + (c : ℝ) * (1 - α))
      ∧ round ((p : ℝ) * α + (c : ℝ) * (1 - α)) ≤ (max c p : ℤ) := by
    intro α h0 h1
    have hbet : (min c p : ℤ) ≤ round ((p : ℝ) * α + (c : ℝ) * (1 - α))
        ∧ round ((p : ℝ) * α + (c : ℝ) * (1 - α)) ≤ (max c p : ℤ) := by
      rcases le_total c p with hcp | hpc
      · have hcpz : ((c : ℤ)) ≤ ((p : ℤ)) := by exact_mod_cast hcp
        rw [min_eq_left hcpz, max_eq_right hcpz]
        exact smooth_round_between p c hcp α h0 h1
      · have hpcz : ((p : ℤ)) ≤ ((c : ℤ)) := by exact_mod_cast hpc
        rw [min_eq_right hpcz, max_eq_left hpcz]
        have hxy : (p : ℝ) * α + (c : ℝ) * (1 - α)
            = (c : ℝ) * (1 - α) + (p : ℝ) * (1 - (1 - α)) := by ring
        rw [hxy]
        exact smooth_round_between c p hpc (1 - α) (by linarith) (by linarith)
    have hmod : (round ((p : ℝ) * α + (c : ℝ) * (1 - α))) % 256
        = round ((p : ℝ) * α + (c : ℝ) * (1 - α)) := by
      refine emod256_eq ?_ ?_
      · refine le_trans ?_ hbet.1
        positivity
      · refine le_trans hbet.2 ?_
        have : max c p ≤ 255 := max_le hc255 hp255
        exact_mod_cast this
    refine ⟨?_, hbet⟩
    rw [smoothFrequencyData_getD_in cur prev α i hcur hprev, ← hc, ← hp, hmod]
  have key0 := key 0 le_rfl zero_le_one
  have key1 := key 1 zero_le_one le_rfl
  refine ⟨?_, ?_, ?_, ?_⟩
  · rw [key0.1]
    rw [show ((p : ℝ) * 0 + (c : ℝ) * (1 - 0)) = ((c : ℕ) : ℝ) by ring]
    rw [round_natCast]
    exact Int.toNat_natCast c
  · rw [key1.1]
    rw [show ((p : ℝ) * 1 + (c : ℝ) * (1 - 1)) = ((p : ℕ) : ℝ) by ring]
    rw [round_natCast]
    exact Int.toNat_natCast p
  · intro a b ha hab hb
    have ka := key a ha (le_trans hab hb)
    have kb := key b (le_trans ha hab) hb
    constructor
    · intro hcp
      rw [ka.1, kb.1]
      exact Int.toNat_le_toNat (smooth_round_mono p c hcp a b hab)
    · intro hpc
      rw [ka.1, kb.1]
      apply Int.toNat_le_toNat
      have hsw : ∀ t : ℝ, (p : ℝ) * t + (c : ℝ) * (1 - t)
          = (c : ℝ) * (1 - t) + (p : ℝ) * (1 - (1 - t)) := by intro t; ring
      rw [hsw a, hsw b]
      exact smooth_round_mono c p hpc (1 - b) (1 - a) (by linarith)
  · intro a ha hb
    have ka := key a ha hb
    constructor
    · rw [ka.1]
      have := ka.2.1
      omega
    · rw [ka.1]
      have := ka.2.2
      omega

/-- C7 witness: the betweenness conclusion at current `[10]`, previous `[20]`,
index `0`, factor `1/2`. -/
theorem c7_witness :
    min (([10] : List ℕ).getD 0 0) (([20] : List ℕ).getD 0 0)
      ≤ (smoothFrequencyData [10] (some [20]) (1/2)).getD 0 0
    ∧ (smoothFrequencyData [10] (some [20]) (1/2)).getD 0 0
      ≤ max (([10] : List ℕ).getD 0 0) (([20] : List ℕ).getD 0 0) :=
  (c7_smoothing_monotone [10] [20] 0 (by norm_num) (by norm_num) (by norm_num)
    (by norm_num)).2.2.2 (1/2) (by norm_num) (by norm_num)

/-! ### C9 -/

/-- C9 counterexample: the hue is not wrapped or clamped into `[0, 360)`; at
frequency `22050` (an in-range FFT bin frequency) the `hsl` mode produces hue
`22050 / 20000 * 360 = 396.9 ≥ 360`. -/
theorem c9_counterexample :
    getFrequencyColor 22050 (1/2) ColorMode.hsl
      = ColorResult.hslColor ⟨(22050 : ℝ) / 20000 * 360, 85, 60⟩
    ∧ ¬ ((22050 : ℝ) / 20000 * 360 < 360) := by
  constructor
  · unfold getFrequencyColor
    norm_num
  · norm_num

/-- C9 corrected: for every frequency in `[0, 20000)` and intensity in
`[0, 1]`, the `hsl` mode produces exactly
`hue = (frequency / 20000) * 360` (which then lies in `[0, 360)`),
`saturation = 70 + 30 * intensity` and `lightness = 40 + 40 * intensity`;
for frequencies at or above 20000 the same hue formula applies but leaves
`[0, 360)`. -/
theorem c9_color_formulas (frequency intensity : ℝ)
    (hi0 : 0 ≤ intensity) (hi1 : intensity ≤ 1)
    (hf0 : 0 ≤ frequency) (hf : frequency < 20000) :
    getFrequencyColor frequency intensity ColorMode.hsl
      = ColorResult.hslColor
          ⟨frequency / 20000 * 360, 70 + intensity * 30, 40 + intensity * 40⟩
    ∧ 0 ≤ frequency / 20000 * 360 ∧ frequency / 20000 * 360 < 360 := by
  refine ⟨rfl, by positivity, ?_⟩
  have h : frequency / 20000 < 1 := (div_lt_one (by norm_num)).mpr hf
  nlinarith

/-- C9 witness: the corrected statement at frequency `1000`, intensity `1/2`. -/
theorem c9_witness :
    getFrequencyColor 1000 (1/2) ColorMode.hsl
      = ColorResult.hslColor
          ⟨(1000 : ℝ) / 20000 * 360, 70 + (1/2) * 30, 40 + (1/2) * 40⟩
    ∧ 0 ≤ (1000 : ℝ) / 20000 * 360 ∧ (1000 : ℝ) / 20000 * 360 < 360 :=
  c9_color_formulas 1000 (1/2) (by norm_num) (by norm_num) (by norm_num) (by norm_num)

/-! ### Bar-dataset lemmas (C3, C10) -/

lemma pow15_nonneg {x : ℝ} (hx : 0 ≤ x) : 0 ≤ pow15 x :=
  mul_nonneg hx (Real.sqrt_nonneg x)

lemma pow15_mono {x y : ℝ} (hx : 0 ≤ x) (h : x ≤ y) : pow15 x ≤ pow15 y :=
  mul_le_mul h (Real.sqrt_le_sqrt h) (Real.sqrt_nonneg x) (le_trans hx h)

lemma applyLogScaling_length (data : List ℕ) :
    (applyLogScaling data).length = data.length := by
  unfold applyLogScaling
  rw [List.length_map, List.length_range]

lemma processedData_length (data : List ℕ) (opts : VisualizationOptions) :
    (normalizeFrequencyData
      ((if opts.logScaling then applyLogScaling data else data).map (· % 256)) 255).length
      = data.length := by
  unfold normalizeFrequencyData
  rw [List.length_map, List.length_map]
  cases hls : opts.logScaling
  · simp [hls]
  · simp [hls, applyLogScaling_length]

lemma createCircular_length (data : List ℕ) (numBars : ℕ) (opts : VisualizationOptions) :
    (createCircularVisualizationData data numBars opts).length = numBars := by
  simp [createCircularVisualizationData]

lemma mem_createCircular {data : List ℕ} {numBars : ℕ} {opts : VisualizationOptions}
    {b : BarDatum} :
    b ∈ createCircularVisualizationData data numBars opts ↔
    ∃ i, i < numBars ∧ b = barAt
      (normalizeFrequencyData
        ((if opts.logScaling then applyLogScaling data else data).map (· % 256)) 255)
      numBars (data.length / numBars) opts i := by
  simp only [createCircularVisualizationData, processedData_length, List.mem_map,
    List.mem_range]
  constructor
  · rintro ⟨i, hi, rfl⟩
    exact ⟨i, hi, rfl⟩
  · rintro ⟨i, hi, rfl⟩
    exact ⟨i, hi, rfl⟩

lemma barAt_height_eq (nd : List ℝ) (numBars step : ℕ)
    (opts : VisualizationOptions) (i : ℕ) :
    (barAt nd numBars step opts i).height
      = pow15 (min (max (barAt nd numBars step opts i).rawValue opts.minBarHeight)
          opts.maxBarHeight) :=
  rfl

lemma barAt_height_bounds (nd : List ℝ) (numBars step : ℕ)
    (opts : VisualizationOptions) (i : ℕ)
    (h0 : 0 ≤ opts.minBarHeight) (hm : opts.minBarHeight ≤ opts.maxBarHeight) :
    pow15 opts.minBarHeight ≤ (barAt nd numBars step opts i).height
    ∧ (barAt nd numBars step opts i).height ≤ pow15 opts.maxBarHeight := by
  rw [barAt_height_eq]
  constructor
  · exact pow15_mono h0 (le_min (le_max_right _ _) hm)
  · exact pow15_mono (le_trans h0 (le_min (le_max_right _ _) hm)) (min_le_right _ _)

lemma barAt_angle_eq (nd : List ℝ) (numBars step : ℕ)
    (opts : VisualizationOptions) (i : ℕ) :
    (barAt nd numBars step opts i).angle = (i : ℝ) / (numBars : ℝ) * Real.pi * 2 :=
  rfl

lemma barAt_index_eq (nd : List ℝ) (numBars step : ℕ)
    (opts : VisualizationOptions) (i : ℕ) :
    (barAt nd numBars step opts i).index = i :=
  rfl

lemma angle_strict_mono {numBars : ℕ} (hn : 0 < numBars) {i j : ℕ}
    (hij : i < j) :
    (i : ℝ) / (numBars : ℝ) * Real.pi * 2 < (j : ℝ) / (numBars : ℝ) * Real.pi * 2 := by
  have hN : (0 : ℝ) < (numBars : ℝ) := by exact_mod_cast hn
  have hij' : (i : ℝ) < (j : ℝ) := by exact_mod_cast hij
  have h1 : (i : ℝ) / (numBars : ℝ) < (j : ℝ) / (numBars : ℝ) :=
    div_lt_div_of_pos_right hij' hN
  nlinarith [Real.pi_pos]

/-- For a zero loop step every bar reads an empty segment: `rawValue = 0`,
`frequency = frequency(0) = 0`, and the height is the eased floor. -/
lemma barAt_step_zero (nd : List ℝ) (numBars : ℕ) (opts : VisualizationOptions)
    (i : ℕ) (h0 : 0 ≤ opts.minBarHeight) (hm : opts.minBarHeight ≤ opts.maxBarHeight) :
    barAt nd numBars 0 opts i
      = { index := i, height := pow15 opts.minBarHeight, frequency := 0,
          rawValue := 0, angle := (i : ℝ) / (numBars : ℝ) * Real.pi * 2 } := by
  unfold barAt
  norm_num [getFrequencyForIndex]
  rw [max_eq_right h0, min_eq_left hm]

/-- C3 counterexample: with the all-default options and an all-zero (here
empty) buffer, the first bar's height is `0.05 * √0.05 < 0.05`, strictly
below `minBarHeight` — the claimed range `[minBarHeight, maxBarHeight]` fails
because the `pow 1.5` easing is applied after the clamp. -/
theorem c3_counterexample :
    (createCircularVisualizationData [] 72 defaultVizOptions).length = 72
    ∧ ((createCircularVisualizationData [] 72 defaultVizOptions).getD 0 dummyBar).height
        < defaultVizOptions.minBarHeight := by
  refine ⟨createCircular_length [] 72 defaultVizOptions, ?_⟩
  have hget : (createCircularVisualizationData [] 72 defaultVizOptions).getD 0 dummyBar
      = barAt (normalizeFrequencyData
          ((if defaultVizOptions.logScaling then applyLogScaling [] else []).map (· % 256)) 255)
        72 0 defaultVizOptions 0 := by
    simp [createCircularVisualizationData, List.getD_eq_getElem?_getD,
      List.getElem?_map, List.getElem?_range, applyLogScaling, normalizeFrequencyData]
  rw [hget, barAt_step_zero _ _ _ _ (by norm_num [defaultVizOptions])
    (by norm_num [defaultVizOptions])]
  show pow15 defaultVizOptions.minBarHeight < defaultVizOptions.minBarHeight
  show pow15 (0.05 : ℝ) < (0.05 : ℝ)
  unfold pow15
  have hs : Real.sqrt 0.05 < 1 := by
    rw [Real.sqrt_lt' one_pos]
    norm_num
  linarith [Real.sqrt_nonneg (0.05 : ℝ)]

/-- C3 corrected: bar-dataset generation returns exactly `numBars` entries;
every height lies in `[minBarHeight ^ 1.5, maxBarHeight ^ 1.5]` (the clamp to
`[minBarHeight, maxBarHeight]` happens before the `pow 1.5` easing, so the
floor and ceiling are eased too); and each `angle = (index / numBars) * 2π`
is strictly increasing across the sequence and stays in `[0, 2π)`. -/
theorem c3_bar_dataset_shape (data : List ℕ) (numBars : ℕ)
    (opts : VisualizationOptions) (hn : 0 < numBars)
    (h0 : 0 ≤ opts.minBarHeight) (hm : opts.minBarHeight ≤ opts.maxBarHeight) :
    (createCircularVisualizationData data numBars opts).length = numBars
    ∧ (∀ b ∈ createCircularVisualizationData data numBars opts,
        pow15 opts.minBarHeight ≤ b.height ∧ b.height ≤ pow15 opts.maxBarHeight)
    ∧ (∀ b ∈ createCircularVisualizationData data numBars opts,
        b.angle = (b.index : ℝ) / (numBars : ℝ) * Real.pi * 2
        ∧ 0 ≤ b.angle ∧ b.angle < 2 * Real.pi)
    ∧ List.Pairwise (fun x y => x < y)
        ((createCircularVisualizationData data numBars opts).map BarDatum.angle) := by
  have hN : (0 : ℝ) < (numBars : ℝ) := by exact_mod_cast hn
  refine ⟨createCircular_length data numBars opts, ?_, ?_, ?_⟩
  · intro b hb
    obtain ⟨i, hi, rfl⟩ := mem_createCircular.mp hb
    exact barAt_height_bounds _ _ _ _ _ h0 hm
  · intro b hb
    obtain ⟨i, hi, rfl⟩ := mem_createCircular.mp hb
    rw [barAt_angle_eq, barAt_index_eq]
    refine ⟨rfl, ?_, ?_⟩
    · have : (0 : ℝ) ≤ (i : ℝ) / (numBars : ℝ) := by positivity
      nlinarith [Real.pi_pos]
    · have hi' : (i : ℝ) < (numBars : ℝ) := by exact_mod_cast hi
      have h1 : (i : ℝ) / (numBars : ℝ) < 1 := (div_lt_one hN).mpr hi'
      nlinarith [Real.pi_pos]
  · unfold createCircularVisualizationData
    rw [List.map_map]
    refine List.Pairwise.map _ ?_ (List.pairwise_lt_range numBars)
    intro i j hij
    show ((barAt _ numBars _ opts i).angle) < ((barAt _ numBars _ opts j).angle)
    rw [barAt_angle_eq, barAt_angle_eq]
    exact angle_strict_mono hn hij

/-- C3 witness: the corrected statement at a concrete buffer `[0, 0]` with
`numBars = 5` and the default options. -/
theorem c3_witness :
    (createCircularVisualizationData [0, 0] 5 defaultVizOptions).length = 5 :=
  (c3_bar_dataset_shape [0, 0] 5 defaultVizOptions (by norm_num)
    (by norm_num [defaultVizOptions]) (by norm_num [defaultVizOptions])).1

/-- C10: whenever the buffer is strictly shorter than the requested bar count,
the step is `0`, so generation still returns exactly `numBars` bars but every
bar has `rawValue = 0`, `frequency = 0` and height `minBarHeight ^ 1.5`,
regardless of the buffer's contents. -/
theorem c10_short_buffer_bars (data : List ℕ) (numBars : ℕ)
    (opts : VisualizationOptions) (hlen : data.length < numBars)
    (h0 : 0 ≤ opts.minBarHeight) (hm : opts.minBarHeight ≤ opts.maxBarHeight) :
    (createCircularVisualizationData data numBars opts).length = numBars
    ∧ ∀ b ∈ createCircularVisualizationData data numBars opts,
        b.rawValue = 0 ∧ b.frequency = 0 ∧ b.height = pow15 opts.minBarHeight := by
  refine ⟨createCircular_length data numBars opts, ?_⟩
  intro b hb
  obtain ⟨i, hi, rfl⟩ := mem_createCircular.mp hb
  rw [Nat.div_eq_of_lt hlen, barAt_step_zero _ _ _ _ h0 hm]
  exact ⟨rfl, rfl, rfl⟩

/-- C10 witness: the statement at buffer `[3, 9]` (length 2) with
`numBars = 72` and the default options. -/
theorem c10_witness :
    (createCircularVisualizationData [3, 9] 72 defaultVizOptions).length = 72 :=
  (c10_short_buffer_bars [3, 9] 72 defaultVizOptions (by norm_num)
    (by norm_num [defaultVizOptions]) (by norm_num [defaultVizOptions])).1

/-! ### Degenerate-buffer evaluation lemmas (C1, C4) -/

lemma rms_replicate_zero (n : ℕ) (hn : n ≠ 0) :
    calculateRMS (List.replicate n (0 : ℝ)) = 1 := by
  unfold calculateRMS
  rw [List.length_replicate, if_neg hn, List.map_replicate]
  rw [show (((0 : ℝ) - 128) / 128) * (((0 : ℝ) - 128) / 128) = 1 by norm_num]
  rw [List.sum_replicate, nsmul_eq_mul, mul_one,
    div_self (by exact_mod_cast hn : (n : ℝ) ≠ 0), Real.sqrt_one]
  exact min_self 1

lemma peak_foldl_replicate_zero (n : ℕ) :
    ∀ a : ℝ, (List.replicate n (0 : ℝ)).foldl (fun peak v => max peak |(v - 128) / 128|) a
      = if n = 0 then a else max a 1 := by
  induction n with
  | zero => intro a; simp
  | succ k ih =>
      intro a
      rw [List.replicate_succ, List.foldl_cons, ih]
      have h1 : max a |((0 : ℝ) - 128) / 128| = max a 1 := by norm_num
      rw [h1]
      rcases Nat.eq_zero_or_pos k with hk | hk
      · simp [hk]
      · rw [if_neg (Nat.pos_iff_ne_zero.mp hk), if_neg (Nat.succ_ne_zero k),
          max_assoc, max_self]

lemma peak_replicate_zero (n : ℕ) (hn : n ≠ 0) :
    calculatePeak (List.replicate n (0 : ℝ)) = 1 := by
  unfold calculatePeak
  rw [List.length_replicate, if_neg hn, peak_foldl_replicate_zero, if_neg hn]
  rw [max_eq_right zero_le_one]
  exact min_self 1

lemma centroid_replicate_zero (n : ℕ) :
    calculateSpectralCentroid (List.replicate n (0 : ℝ)) 44100 2048 = 0 := by
  unfold calculateSpectralCentroid
  rw [List.sum_replicate, nsmul_eq_mul, mul_zero]
  norm_num

lemma flatness_replicate_zero (n : ℕ) (hn : n ≠ 0) :
    calculateSpectralFlatness (List.replicate n (0 : ℝ)) = 1 := by
  unfold calculateSpectralFlatness
  rw [List.length_replicate, if_neg hn, List.map_replicate, List.map_replicate]
  have hmax : max (0 : ℝ) 0.0001 = 0.0001 := by norm_num
  rw [hmax, List.sum_replicate, List.sum_replicate, nsmul_eq_mul, nsmul_eq_mul]
  have hne : (n : ℝ) ≠ 0 := by exact_mod_cast hn
  rw [mul_comm (n : ℝ) (Real.log 0.0001), mul_div_assoc, div_self hne, mul_one,
    Real.exp_log (by norm_num), mul_comm (n : ℝ) (0.0001 : ℝ), mul_div_assoc,
    div_self hne, mul_one, if_pos (by norm_num : (0.0001 : ℝ) > 0),
    div_self (by norm_num : (0.0001 : ℝ) ≠ 0)]

lemma rolloffScan_cons_hit (v : ℝ) (rest : List ℝ) (target cum : ℝ) (idx : ℕ)
    (h : cum + v ≥ target) :
    rolloffScan (v :: rest) target cum idx = some idx := by
  unfold rolloffScan
  rw [if_pos h]

lemma rolloff_replicate_zero (n : ℕ) (hn : n ≠ 0) :
    calculateSpectralRolloff (List.replicate n (0 : ℝ)) 44100 2048 0.85 = 0 := by
  obtain ⟨k, rfl⟩ := Nat.exists_eq_succ_of_ne_zero hn
  simp only [calculateSpectralRolloff]
  rw [List.replicate_succ, List.sum_cons, List.sum_replicate, nsmul_eq_mul, mul_zero,
    add_zero]
  rw [rolloffScan_cons_hit 0 (List.replicate k 0) (0 * 0.85) 0 0 (by norm_num)]
  show getFrequencyForIndex ((0 : ℕ) : ℝ) 2048 44100 = 0
  unfold getFrequencyForIndex
  norm_num

lemma getD_of_all_eq {α : Type} (l : List α) (d : α) (h : ∀ x ∈ l, x = d) (i : ℕ) :
    l.getD i d = d := by
  rw [List.getD_eq_getElem?_getD]
  cases hg : l[i]? with
  | none => rfl
  | some v =>
      have hv : v ∈ l := List.getElem?_mem hg
      simp [h v hv]

lemma bandAverage_zero (data : List ℝ) (h : ∀ x ∈ data, x = 0) :
    ∀ lowFreq highFreq sampleRate fftSize : ℝ,
      bandAverage data lowFreq highFreq sampleRate fftSize = 0 := by
  intro lowFreq highFreq sampleRate fftSize
  simp only [bandAverage]
  have hsum : ((((List.range data.length).filter (fun (i : ℕ) =>
      decide (getIndexForFrequency lowFreq fftSize sampleRate ≤ (i : ℤ)
        ∧ (i : ℤ) ≤ getIndexForFrequency highFreq fftSize sampleRate))).map
      (fun i => data.getD i 0)).sum) = 0 := by
    apply List.sum_eq_zero
    intro x hx
    obtain ⟨i, _, rfl⟩ := List.mem_map.mp hx
    exact getD_of_all_eq data 0 h i
  rw [hsum]
  rw [zero_div]
  exact ite_self 0

lemma calculateBandAverages_zero (data : List ℝ) (h : ∀ x ∈ data, x = 0)
    (sampleRate fftSize : ℝ) :
    calculateBandAverages data sampleRate fftSize = ⟨0, 0, 0, 0, 0, 0, 0⟩ := by
  unfold calculateBandAverages
  simp only [bandAverage_zero data h]

lemma foldl_min_replicate_zero (n : ℕ) :
    ∀ a : EReal, (List.replicate n (0 : ℝ)).foldl (fun m v => Min.min m ((v : ℝ) : EReal)) a
      = if n = 0 then a else min a 0 := by
  induction n with
  | zero => intro a; simp
  | succ k ih =>
      intro a
      rw [List.replicate_succ, List.foldl_cons, ih]
      rcases Nat.eq_zero_or_pos k with hk | hk
      · simp [hk]
      · rw [if_neg (Nat.pos_iff_ne_zero.mp hk), if_neg (Nat.succ_ne_zero k)]
        rw [show (((0 : ℝ) : EReal)) = (0 : EReal) from rfl, min_assoc, min_self]

lemma foldl_max_replicate_zero (n : ℕ) :
    ∀ a : EReal, (List.replicate n (0 : ℝ)).foldl (fun m v => Max.max m ((v : ℝ) : EReal)) a
      = if n = 0 then a else max a 0 := by
  induction n with
  | zero => intro a; simp
  | succ k ih =>
      intro a
      rw [List.replicate_succ, List.foldl_cons, ih]
      rcases Nat.eq_zero_or_pos k with hk | hk
      · simp [hk]
      · rw [if_neg (Nat.pos_iff_ne_zero.mp hk), if_neg (Nat.succ_ne_zero k)]
        rw [show (((0 : ℝ) : EReal)) = (0 : EReal) from rfl, max_assoc, max_self]

lemma barAt_all_zero (nd : List ℝ) (hnd : ∀ x ∈ nd, x = 0) (numBars step : ℕ)
    (opts : VisualizationOptions) (i : ℕ)
    (h0 : 0 ≤ opts.minBarHeight) (hm : opts.minBarHeight ≤ opts.maxBarHeight) :
    (barAt nd numBars step opts i).rawValue = 0
    ∧ (barAt nd numBars step opts i).height = pow15 opts.minBarHeight := by
  have hraw : (barAt nd numBars step opts i).rawValue = 0 := by
    show (if 0 < min (i * step + step) nd.length - i * step then
        ((nd.drop (i * step)).take (min (i * step + step) nd.length - i * step)).sum
          / ((min (i * step + step) nd.length - i * step : ℕ) : ℝ)
      else 0) = 0
    have hsum : ((nd.drop (i * step)).take
        (min (i * step + step) nd.length - i * step)).sum = 0 := by
      apply List.sum_eq_zero
      intro x hx
      exact hnd x (List.mem_of_mem_drop (List.mem_of_mem_take hx))
    rw [hsum, zero_div]
    exact ite_self 0
  refine ⟨hraw, ?_⟩
  rw [barAt_height_eq, hraw, max_eq_right h0, min_eq_left hm]

lemma zero_buffer_normalized (n : ℕ) (opts : VisualizationOptions) :
    ∀ x ∈ normalizeFrequencyData
      ((if opts.logScaling then applyLogScaling (List.replicate n 0) else
        List.replicate n 0).map (· % 256)) 255, x = 0 := by
  intro x hx
  obtain ⟨v, hv, rfl⟩ := List.mem_map.mp hx
  obtain ⟨w, hw, rfl⟩ := List.mem_map.mp hv
  have hw0 : w = 0 := by
    cases hls : opts.logScaling
    · rw [hls] at hw
      simp only [if_neg (by simp : ¬(false = true))] at hw
      exact List.eq_of_mem_replicate hw
    · rw [hls] at hw
      simp only [if_pos rfl] at hw
      unfold applyLogScaling at hw
      obtain ⟨j, _, rfl⟩ := List.mem_map.mp hw
      by_cases h1 : (List.replicate n (0 : ℕ)).length = 1
      · rw [if_pos h1]
      · rw [if_neg h1]
        exact getD_of_all_eq _ 0 (fun y hy => List.eq_of_mem_replicate hy) _
  rw [hw0]
  norm_num

/-! ### C1 -/

/-- C1 counterexample: for the all-zero length-1024 buffer the RMS is `1`
(byte `0` normalizes to `-1`), not `0`, and the rolloff is `0` (the frequency
of bin 0), not the last bin's frequency — so the claimed value set fails. -/
theorem c1_counterexample :
    ¬ (calculateRMS (List.replicate 1024 (0 : ℝ)) = 0
       ∧ calculateSpectralRolloff (List.replicate 1024 (0 : ℝ)) 44100 2048 0.85
           = getFrequencyForIndex 1023 2048 44100) := by
  rintro ⟨h1, _⟩
  rw [rms_replicate_zero 1024 (by norm_num)] at h1
  exact one_ne_zero h1

/-- C1 corrected: for the all-zero buffer of length 1024 the analyzer returns
RMS = 1 and peak = 1 (each byte `0` normalizes to `(0-128)/128 = -1`),
spectral centroid = 0, spectral flatness = 1 (every magnitude is floored to
the same epsilon, so the geometric and arithmetic means coincide), and
spectral rolloff = 0, the frequency of bin 0 (the zero energy target is met
at the very first bin), which differs from the last bin's frequency. -/
theorem c1_all_zero_buffer_values :
    calculateRMS (List.replicate 1024 (0 : ℝ)) = 1
    ∧ calculatePeak (List.replicate 1024 (0 : ℝ)) = 1
    ∧ calculateSpectralCentroid (List.replicate 1024 (0 : ℝ)) 44100 2048 = 0
    ∧ calculateSpectralFlatness (List.replicate 1024 (0 : ℝ)) = 1
    ∧ calculateSpectralRolloff (List.replicate 1024 (0 : ℝ)) 44100 2048 0.85 = 0
    ∧ getFrequencyForIndex 1023 2048 44100 ≠ 0 :=
  ⟨rms_replicate_zero 1024 (by norm_num), peak_replicate_zero 1024 (by norm_num),
   centroid_replicate_zero 1024, flatness_replicate_zero 1024 (by norm_num),
   rolloff_replicate_zero 1024 (by norm_num),
   by unfold getFrequencyForIndex; norm_num⟩

/-! ### C4 -/

/-- C4 counterexample: on the all-zero length-4 buffer the rolloff is `0`,
not the documented last-bin frequency `frequency(3) ≠ 0`. -/
theorem c4_counterexample :
    calculateSpectralRolloff (List.replicate 4 (0 : ℝ)) 44100 2048 0.85 = 0
    ∧ getFrequencyForIndex 3 2048 44100 ≠ 0 :=
  ⟨rolloff_replicate_zero 4 (by norm_num),
   by unfold getFrequencyForIndex; norm_num⟩

/-- C4 corrected: every analyzer function is total on empty and all-zero
buffers (each is a total function, so no exception is possible), but the
returned values differ from the claimed defaults.  On empty buffers RMS,
peak, flatness, centroid and all band energies are `0`, while rolloff returns
`frequency(length - 1) = frequency(-1) = -(44100/2048) < 0` and the snapshot's
frequency min/max/avg are `Infinity`/`-Infinity`/`NaN`.  On non-empty all-zero
buffers the centroid is `0` but flatness is `1`, rolloff is `0` (bin 0, not
the last bin), RMS and peak are `1` when the zero buffer feeds the level
functions (also inside the snapshot), band energies are `0`, the snapshot's
min/max/avg/total are all `0`, and every bar keeps `rawValue = 0` with height
`minBarHeight ^ 1.5` (the eased height floor). -/
theorem c4_degenerate_totality (n : ℕ) (hn : n ≠ 0) :
    calculateRMS ([] : List ℝ) = 0
    ∧ calculatePeak ([] : List ℝ) = 0
    ∧ calculateSpectralFlatness ([] : List ℝ) = 0
    ∧ calculateSpectralCentroid ([] : List ℝ) 44100 2048 = 0
    ∧ calculateSpectralRolloff ([] : List ℝ) 44100 2048 0.85 = -(44100 / 2048)
    ∧ calculateBandAverages ([] : List ℝ) 44100 2048 = ⟨0, 0, 0, 0, 0, 0, 0⟩
    ∧ (calculateAudioStats ([] : List ℝ) none).frequency.min = ⊤
    ∧ (calculateAudioStats ([] : List ℝ) none).frequency.max = ⊥
    ∧ (calculateAudioStats ([] : List ℝ) none).frequency.avg = none
    ∧ calculateSpectralCentroid (List.replicate n (0 : ℝ)) 44100 2048 = 0
    ∧ calculateSpectralFlatness (List.replicate n (0 : ℝ)) = 1
    ∧ calculateSpectralRolloff (List.replicate n (0 : ℝ)) 44100 2048 0.85 = 0
    ∧ calculateRMS (List.replicate n (0 : ℝ)) = 1
    ∧ calculatePeak (List.replicate n (0 : ℝ)) = 1
    ∧ calculateBandAverages (List.replicate n (0 : ℝ)) 44100 2048 = ⟨0, 0, 0, 0, 0, 0, 0⟩
    ∧ (calculateAudioStats (List.replicate n (0 : ℝ)) none).frequency.min = (0 : EReal)
    ∧ (calculateAudioStats (List.replicate n (0 : ℝ)) none).frequency.max = (0 : EReal)
    ∧ (calculateAudioStats (List.replicate n (0 : ℝ)) none).frequency.avg = some 0
    ∧ (calculateAudioStats (List.replicate n (0 : ℝ)) none).frequency.total = 0
    ∧ (calculateAudioStats (List.replicate n (0 : ℝ))
        (some (List.replicate n 0))).level.rms = 1
    ∧ (∀ b ∈ createCircularVisualizationData (List.replicate n 0) 72 defaultVizOptions,
        b.rawValue = 0 ∧ b.height = pow15 defaultVizOptions.minBarHeight) := by
  refine ⟨by simp [calculateRMS], by simp [calculatePeak],
    by simp [calculateSpectralFlatness], by simp [calculateSpectralCentroid],
    ?_, calculateBandAverages_zero [] (by simp) 44100 2048, rfl, rfl, rfl,
    centroid_replicate_zero n, flatness_replicate_zero n hn,
    rolloff_replicate_zero n hn, rms_replicate_zero n hn, peak_replicate_zero n hn,
    calculateBandAverages_zero (List.replicate n 0)
      (fun x hx => List.eq_of_mem_replicate hx) 44100 2048,
    ?_, ?_, ?_, ?_, ?_, ?_⟩
  · simp only [calculateSpectralRolloff, rolloffScan]
    unfold getFrequencyForIndex
    norm_num
  · simp only [calculateAudioStats]
    rw [foldl_min_replicate_zero n ⊤, if_neg hn]
    exact min_eq_right le_top
  · simp only [calculateAudioStats]
    rw [foldl_max_replicate_zero n ⊥, if_neg hn]
    exact max_eq_right bot_le
  · simp only [calculateAudioStats]
    rw [List.length_replicate, if_neg hn, List.sum_replicate, nsmul_eq_mul, mul_zero,
      zero_div]
  · simp only [calculateAudioStats]
    rw [List.sum_replicate, nsmul_eq_mul, mul_zero]
  · simp only [calculateAudioStats]
    rw [List.length_replicate, if_neg hn]
    exact rms_replicate_zero n hn
  · intro b hb
    obtain ⟨i, _, rfl⟩ := mem_createCircular.mp hb
    exact barAt_all_zero _ (zero_buffer_normalized n defaultVizOptions) _ _
      defaultVizOptions i (by norm_num [defaultVizOptions])
      (by norm_num [defaultVizOptions])

/-- C4 witness: the corrected statement at `n = 4`, first conjunct. -/
theorem c4_witness : calculateRMS ([] : List ℝ) = 0 :=
  (c4_degenerate_totality 4 (by norm_num)).1

/-! ### Rolloff scan lemmas (C8) -/

lemma rolloffScan_idx_bounds (data : List ℝ) :
    ∀ (t cum : ℝ) (idx j : ℕ), rolloffScan data t cum idx = some j →
      idx ≤ j ∧ j < idx + data.length := by
  induction data with
  | nil =>
      intro t cum idx j h
      simp [rolloffScan] at h
  | cons v rest ih =>
      intro t cum idx j h
      rw [rolloffScan] at h
      by_cases hc : cum + v ≥ t
      · rw [if_pos hc] at h
        have hj : idx = j := Option.some.inj h
        subst hj
        simp [List.length_cons]
      · rw [if_neg hc] at h
        obtain ⟨h1, h2⟩ := ih t (cum + v) (idx + 1) j h
        rw [List.length_cons]
        omega

lemma rolloffScan_target_mono (data : List ℝ) :
    ∀ (t₁ t₂ cum : ℝ) (idx : ℕ), t₁ ≤ t₂ →
      ∀ j, rolloffScan data t₂ cum idx = some j →
        ∃ k, rolloffScan data t₁ cum idx = some k ∧ k ≤ j := by
  induction data with
  | nil =>
      intro t₁ t₂ cum idx ht j h
      simp [rolloffScan] at h
  | cons v rest ih =>
      intro t₁ t₂ cum idx ht j h
      by_cases hc2 : cum + v ≥ t₂
      · rw [rolloffScan, if_pos hc2] at h
        have hj : idx = j := Option.some.inj h
        subst hj
        exact ⟨idx, by rw [rolloffScan, if_pos (le_trans ht hc2)], le_rfl⟩
      · rw [rolloffScan, if_neg hc2] at h
        by_cases hc1 : cum + v ≥ t₁
        · refine ⟨idx, by rw [rolloffScan, if_pos hc1], ?_⟩
          have := (rolloffScan_idx_bounds rest t₂ (cum + v) (idx + 1) j h).1
          omega
        · obtain ⟨k, hk, hkj⟩ := ih t₁ t₂ (cum + v) (idx + 1) ht j h
          exact ⟨k, by rw [rolloffScan, if_neg hc1]; exact hk, hkj⟩

lemma calculateSpectralRolloff_eq_of_some {data : List ℝ} {sr fft p : ℝ} {j : ℕ}
    (h : rolloffScan data (data.sum * p) 0 0 = some j) :
    calculateSpectralRolloff data sr fft p = getFrequencyForIndex (j : ℝ) fft sr := by
  simp only [calculateSpectralRolloff, h]

lemma calculateSpectralRolloff_eq_of_none {data : List ℝ} {sr fft p : ℝ}
    (h : rolloffScan data (data.sum * p) 0 0 = none) :
    calculateSpectralRolloff data sr fft p
      = getFrequencyForIndex ((data.length : ℝ) - 1) fft sr := by
  simp only [calculateSpectralRolloff, h]

/-- C8: holding the buffer fixed, the spectral rolloff is non-decreasing in
the percentile: a higher percentile raises the energy target, so the scan can
only cross it at the same or a later bin, and the bin-to-frequency map is
monotone. -/
theorem c8_rolloff_monotone (data : List ℝ) (p₁ p₂ sampleRate fftSize : ℝ)
    (hd : ∀ x ∈ data, 0 ≤ x) (hp0 : 0 ≤ p₁) (hpp : p₁ ≤ p₂) (hp1 : p₂ ≤ 1)
    (hsr : 0 ≤ sampleRate) (hfft : 0 < fftSize) :
    calculateSpectralRolloff data sampleRate fftSize p₁
      ≤ calculateSpectralRolloff data sampleRate fftSize p₂ := by
  have htot : 0 ≤ data.sum := List.sum_nonneg hd
  have ht : data.sum * p₁ ≤ data.sum * p₂ := mul_le_mul_of_nonneg_left hpp htot
  cases hc2 : rolloffScan data (data.sum * p₂) 0 0 with
  | some j =>
      obtain ⟨k, hk, hkj⟩ := rolloffScan_target_mono data _ _ 0 0 ht j hc2
      rw [calculateSpectralRolloff_eq_of_some hk, calculateSpectralRolloff_eq_of_some hc2]
      unfold getFrequencyForIndex
      have hkj' : (k : ℝ) ≤ (j : ℝ) := by exact_mod_cast hkj
      gcongr
  | none =>
      cases hc1 : rolloffScan data (data.sum * p₁) 0 0 with
      | some k =>
          rw [calculateSpectralRolloff_eq_of_some hc1,
            calculateSpectralRolloff_eq_of_none hc2]
          have hlt := (rolloffScan_idx_bounds data _ 0 0 k hc1).2
          unfold getFrequencyForIndex
          have hk1 : (k : ℝ) ≤ (data.length : ℝ) - 1 := by
            have h1 : k + 1 ≤ data.length := by omega
            have h2 : ((k + 1 : ℕ) : ℝ) ≤ ((data.length : ℕ) : ℝ) := by
              exact_mod_cast h1
            push_cast at h2
            linarith
          gcongr
      | none =>
          rw [calculateSpectralRolloff_eq_of_none hc1,
            calculateSpectralRolloff_eq_of_none hc2]

/-- C8 witness: the statement at buffer `[1, 1]`, percentiles `1/4 ≤ 1`, with
the default rate parameters. -/
theorem c8_witness :
    calculateSpectralRolloff [1, 1] 44100 2048 (1/4)
      ≤ calculateSpectralRolloff [1, 1] 44100 2048 1 :=
  c8_rolloff_monotone [1, 1] (1/4) 1 44100 2048
    (by intro x hx; simp at hx; subst hx; norm_num)
    (by norm_num) (by norm_num) (by norm_num) (by norm_num) (by norm_num)

/-! ### Flatness lemmas (C5): geometric mean ≤ arithmetic mean and the range -/

lemma list_sum_eq_fin (l : List ℝ) : l.sum = ∑ i : Fin l.length, l.get i := by
  conv_lhs => rw [← List.ofFn_get l]
  rw [List.sum_ofFn]

lemma list_map_sum_eq_fin (f : ℝ → ℝ) (l : List ℝ) :
    (l.map f).sum = ∑ i : Fin l.length, f (l.get i) := by
  conv_lhs => rw [← List.ofFn_get l]
  rw [List.map_ofFn, List.sum_ofFn]
  rfl

/-- The inequality of the means, in the exp/log form the source computes:
for a non-empty list of positive reals, `exp(mean of logs) ≤ mean`.  It follows
from `log t ≤ t - 1` applied to each `xᵢ / mean`. -/
lemma exp_log_mean_le_mean (l : List ℝ) (hl : l ≠ []) (hpos : ∀ x ∈ l, 0 < x) :
    Real.exp ((l.map Real.log).sum / l.length) ≤ l.sum / l.length := by
  have hn0 : 0 < l.length := List.length_pos.mpr hl
  have hnR : (0 : ℝ) < (l.length : ℝ) := by exact_mod_cast hn0
  have hsumpos : 0 < l.sum := List.sum_pos l hpos hl
  set A := l.sum / l.length with hA
  have hApos : 0 < A := div_pos hsumpos hnR
  have hkey : (l.map Real.log).sum ≤ (l.length : ℝ) * Real.log A := by
    rw [list_map_sum_eq_fin]
    have h2 : ∀ i : Fin l.length,
        Real.log (l.get i) = Real.log (l.get i / A) + Real.log A := by
      intro i
      rw [Real.log_div (ne_of_gt (hpos _ (List.get_mem l i i.isLt)))
        (ne_of_gt hApos)]
      ring
    rw [Finset.sum_congr rfl (fun i _ => h2 i), Finset.sum_add_distrib,
      Finset.sum_const, Finset.card_univ, Fintype.card_fin, nsmul_eq_mul]
    have h3 : ∑ i : Fin l.length, Real.log (l.get i / A)
        ≤ ∑ i : Fin l.length, (l.get i / A - 1) := by
      apply Finset.sum_le_sum
      intro i _
      exact Real.log_le_sub_one_of_pos
        (div_pos (hpos _ (List.get_mem l i i.isLt)) hApos)
    have h4 : ∑ i : Fin l.length, (l.get i / A - 1) = 0 := by
      rw [Finset.sum_sub_distrib, ← Finset.sum_div, ← list_sum_eq_fin,
        Finset.sum_const, Finset.card_univ, Fintype.card_fin, nsmul_eq_mul, mul_one,
        hA]
      field_simp
    linarith
  calc Real.exp ((l.map Real.log).sum / l.length)
      ≤ Real.exp ((l.length : ℝ) * Real.log A / l.length) := by
        apply Real.exp_le_exp.mpr
        gcongr
    _ = Real.exp (Real.log A) := by
        rw [mul_comm, mul_div_assoc, div_self (ne_of_gt hnR), mul_one]
    _ = A := Real.exp_log hApos

/-- The floored magnitude list: non-empty with the data, and positive. -/
lemma floored_pos (data : List ℝ) :
    ∀ x ∈ data.map (fun v => max v 0.0001), 0 < x := by
  intro x hx
  obtain ⟨v, _, rfl⟩ := List.mem_map.mp hx
  exact lt_of_lt_of_le (by norm_num) (le_max_right _ _)

lemma flatness_pos_le_one (data : List ℝ) (hne : data ≠ []) :
    0 < calculateSpectralFlatness data ∧ calculateSpectralFlatness data ≤ 1 := by
  have hn0 : data.length ≠ 0 := by
    simpa [List.length_eq_zero] using hne
  have hnR : (0 : ℝ) < (data.length : ℝ) := by
    exact_mod_cast Nat.pos_of_ne_zero hn0
  have hlne : data.map (fun v => max v 0.0001) ≠ [] := by
    simpa [List.map_eq_nil_iff] using hne
  have hpos := floored_pos data
  have hsumpos : 0 < (data.map (fun v => max v 0.0001)).sum :=
    List.sum_pos _ hpos hlne
  have hmm : data.map (fun v => Real.log (max v 0.0001))
      = (data.map (fun v => max v 0.0001)).map Real.log := by
    rw [List.map_map]
    rfl
  have key := exp_log_mean_le_mean (data.map (fun v => max v 0.0001)) hlne hpos
  rw [List.length_map] at key
  have hA : (data.map (fun v => max v 0.0001)).sum / (data.length : ℝ) > 0 :=
    div_pos hsumpos hnR
  simp only [calculateSpectralFlatness, if_neg hn0, hmm, if_pos hA]
  constructor
  · exact div_pos (Real.exp_pos _) hA
  · rw [div_le_one hA]
    exact key

/-- A uniform buffer has geometric mean equal to arithmetic mean, hence
flatness exactly 1 (for any sample value: the floor maps a uniform buffer to a
uniform floored buffer). -/
lemma flatness_replicate_const (n : ℕ) (c : ℝ) (hn : n ≠ 0) :
    calculateSpectralFlatness (List.replicate n c) = 1 := by
  have hd : (0 : ℝ) < max c 0.0001 := lt_of_lt_of_le (by norm_num) (le_max_right _ _)
  have hnR : ((n : ℕ) : ℝ) ≠ 0 := by exact_mod_cast hn
  have hgeo : ((List.replicate n c).map (fun v => Real.log (max v 0.0001))).sum
      / ((n : ℕ) : ℝ) = Real.log (max c 0.0001) := by
    rw [List.map_replicate, List.sum_replicate, nsmul_eq_mul]
    field_simp
  have harith : ((List.replicate n c).map (fun v => max v 0.0001)).sum
      / ((n : ℕ) : ℝ) = max c 0.0001 := by
    rw [List.map_replicate, List.sum_replicate, nsmul_eq_mul]
    field_simp
  simp only [calculateSpectralFlatness, List.length_replicate, if_neg hn, hgeo, harith]
  rw [if_pos hd, Real.exp_log hd]
  exact div_self (ne_of_gt hd)

/-- Closed form of the flatness of a buffer with one bin `v ≥ ε` and `m` zero
bins. -/
lemma flatness_cons_zeros_eq (m : ℕ) (v : ℝ) (hv : (0.0001 : ℝ) ≤ v) :
    calculateSpectralFlatness (v :: List.replicate m 0)
      = Real.exp ((Real.log v + (m : ℝ) * Real.log 0.0001) / ((m : ℝ) + 1))
        / ((v + (m : ℝ) * 0.0001) / ((m : ℝ) + 1)) := by
  have hmax : max v 0.0001 = v := max_eq_left hv
  have hmax0 : max (0 : ℝ) 0.0001 = 0.0001 := by norm_num
  have hlen : (v :: List.replicate m (0 : ℝ)).length = m + 1 := by
    rw [List.length_cons, List.length_replicate]
  have harith : ((v :: List.replicate m (0 : ℝ)).map (fun x => max x 0.0001)).sum
      = v + (m : ℝ) * 0.0001 := by
    rw [List.map_cons, List.map_replicate, List.sum_cons, List.sum_replicate,
      nsmul_eq_mul, hmax, hmax0]
  have hgeo : ((v :: List.replicate m (0 : ℝ)).map
      (fun x => Real.log (max x 0.0001))).sum
      = Real.log v + (m : ℝ) * Real.log 0.0001 := by
    rw [List.map_cons, List.map_replicate, List.sum_cons, List.sum_replicate,
      nsmul_eq_mul, hmax, hmax0]
  have hv0 : (0 : ℝ) < v := lt_of_lt_of_le (by norm_num) hv
  have hm0 : (0 : ℝ) ≤ (m : ℝ) := Nat.cast_nonneg m
  have hpos : (v + (m : ℝ) * 0.0001) / ((m : ℝ) + 1) > 0 := by positivity
  simp only [calculateSpectralFlatness, hlen, harith, hgeo]
  rw [if_neg (Nat.succ_ne_zero m)]
  push_cast
  rw [if_pos hpos]

/-- Upper bound used to squeeze the single-bin flatness to `0`. -/
lemma flatness_cons_zeros_le (m : ℕ) (v : ℝ) (hv : 1 ≤ v) :
    calculateSpectralFlatness (v :: List.replicate m 0)
      ≤ ((m : ℝ) + 1) * Real.exp (((m : ℝ) * Real.log 0.0001) / ((m : ℝ) + 1))
        * v ^ ((((m : ℝ) + 1))⁻¹ - 1) := by
  have hv0 : (0 : ℝ) < v := lt_of_lt_of_le one_pos hv
  rw [flatness_cons_zeros_eq m v (le_trans (by norm_num) hv)]
  have hN0 : (0 : ℝ) < (m : ℝ) + 1 := by positivity
  have hm0 : (0 : ℝ) ≤ (m : ℝ) := Nat.cast_nonneg m
  have hsplit : Real.exp ((Real.log v + (m : ℝ) * Real.log 0.0001) / ((m : ℝ) + 1))
      = v ^ (((m : ℝ) + 1))⁻¹
        * Real.exp (((m : ℝ) * Real.log 0.0001) / ((m : ℝ) + 1)) := by
    have h1 : v ^ (((m : ℝ) + 1))⁻¹ = Real.exp (Real.log v * (((m : ℝ) + 1))⁻¹) :=
      Real.rpow_def_of_pos hv0 _
    rw [add_div, Real.exp_add, h1, ← div_eq_mul_inv]
  rw [hsplit]
  have hK0 : (0 : ℝ) < Real.exp (((m : ℝ) * Real.log 0.0001) / ((m : ℝ) + 1)) :=
    Real.exp_pos _
  have hvpow : (0 : ℝ) < v ^ (((m : ℝ) + 1))⁻¹ := Real.rpow_pos_of_pos hv0 _
  have hdd : v / ((m : ℝ) + 1) ≤ (v + (m : ℝ) * 0.0001) / ((m : ℝ) + 1) := by
    gcongr
    nlinarith
  have hstep1 : v ^ (((m : ℝ) + 1))⁻¹
        * Real.exp (((m : ℝ) * Real.log 0.0001) / ((m : ℝ) + 1))
        / ((v + (m : ℝ) * 0.0001) / ((m : ℝ) + 1))
      ≤ v ^ (((m : ℝ) + 1))⁻¹
        * Real.exp (((m : ℝ) * Real.log 0.0001) / ((m : ℝ) + 1))
        / (v / ((m : ℝ) + 1)) :=
    div_le_div_of_nonneg_left (mul_nonneg hvpow.le hK0.le)
      (div_pos hv0 hN0) hdd
  refine le_trans hstep1 (le_of_eq ?_)
  rw [Real.rpow_sub hv0, Real.rpow_one]
  field_simp
  ring

/-- C5, third part: with the bin count fixed (at least 2), the flatness of a
single-nonzero-bin buffer tends to `0` from above as the bin value grows. -/
lemma flatness_singleBin_tendsto (n : ℕ) (hn : 2 ≤ n) :
    Filter.Tendsto (fun v => calculateSpectralFlatness (singleBinBuffer n v))
      Filter.atTop (nhds 0) := by
  obtain ⟨m, rfl⟩ : ∃ m, n = m + 1 := ⟨n - 1, by omega⟩
  have hm1 : (1 : ℝ) ≤ (m : ℝ) := by
    have : 1 ≤ m := by omega
    exact_mod_cast this
  have hsb : ∀ v : ℝ, singleBinBuffer (m + 1) v = v :: List.replicate m 0 := by
    intro v
    simp [singleBinBuffer]
  have hexp : (0 : ℝ) < 1 - (((m : ℝ) + 1))⁻¹ := by
    have h2 : (2 : ℝ) ≤ (m : ℝ) + 1 := by linarith
    have hinv : (((m : ℝ) + 1))⁻¹ ≤ (2 : ℝ)⁻¹ := inv_anti₀ two_pos h2
    norm_num at hinv
    linarith
  have hlim0 : Filter.Tendsto (fun v : ℝ => v ^ (-(1 - (((m : ℝ) + 1))⁻¹)))
      Filter.atTop (nhds 0) := tendsto_rpow_neg_atTop hexp
  have hlim : Filter.Tendsto (fun v : ℝ =>
      ((m : ℝ) + 1) * Real.exp (((m : ℝ) * Real.log 0.0001) / ((m : ℝ) + 1))
        * v ^ ((((m : ℝ) + 1))⁻¹ - 1)) Filter.atTop (nhds 0) := by
    have h1 := hlim0.const_mul
      (((m : ℝ) + 1) * Real.exp (((m : ℝ) * Real.log 0.0001) / ((m : ℝ) + 1)))
    rw [mul_zero] at h1
    apply h1.congr
    intro v
    congr 1
    congr 1
    ring
  apply squeeze_zero' ?_ ?_ hlim
  · apply Filter.Eventually.of_forall
    intro v
    rw [hsb v]
    exact (flatness_pos_le_one _ (List.cons_ne_nil _ _)).1.le
  · filter_upwards [Filter.eventually_ge_atTop (1 : ℝ)] with v hv
    rw [hsb v]
    exact flatness_cons_zeros_le m v hv

/-! ### C5 -/

/-- C5: spectral flatness lies in `(0, 1]` for every non-empty buffer
(geometric mean of the floored magnitudes over their arithmetic mean, both
positive, related by the inequality of the means); a uniform buffer of any
positive value has flatness exactly 1; and for a buffer with a single nonzero
bin the flatness stays strictly positive and tends to `0` as the bin value
grows (bin count fixed, at least 2). -/
theorem c5_flatness_range :
    (∀ data : List ℝ, data ≠ [] →
      0 < calculateSpectralFlatness data ∧ calculateSpectralFlatness data ≤ 1)
    ∧ (∀ (n : ℕ) (c : ℝ), n ≠ 0 → 0 < c →
        calculateSpectralFlatness (List.replicate n c) = 1)
    ∧ (∀ n : ℕ, 2 ≤ n →
        Filter.Tendsto (fun v => calculateSpectralFlatness (singleBinBuffer n v))
          Filter.atTop (nhds 0)
        ∧ ∀ v : ℝ, 0 < calculateSpectralFlatness (singleBinBuffer n v)) := by
  refine ⟨flatness_pos_le_one, fun n c hn _ => flatness_replicate_const n c hn,
    fun n hn => ⟨flatness_singleBin_tendsto n hn, fun v => ?_⟩⟩
  have hne : singleBinBuffer n v ≠ [] := List.cons_ne_nil _ _
  exact (flatness_pos_le_one _ hne).1

/-- C5 witness: positivity at the one-element buffer `[5]` and exact flatness
`1` at the uniform buffer of three samples of value `7`. -/
theorem c5_witness :
    0 < calculateSpectralFlatness [5]
    ∧ calculateSpectralFlatness (List.replicate 3 (7 : ℝ)) = 1 :=
  ⟨(c5_flatness_range.1 [5] (by simp)).1,
   c5_flatness_range.2.1 3 7 (by norm_num) (by norm_num)⟩

end
